import Mathlib

namespace AlertBot

/-! ## Data model

Shallow embedding of the alert-bot's monitoring core (`internal/alerts`
storage rows and the monitoring functions of the bot).  Go `float64` price
arithmetic is embedded as exact rational arithmetic; timestamps are embedded
as rational seconds. -/

/-- An alert row (`Alert` struct): the fields relevant to trigger
evaluation. -/
structure Alert where
  id : String
  chatID : Int
  userID : Int
  symbol : String
  targetPrice : ℚ
  targetPercent : ℚ
  basePrice : ℚ
  deriving Repr, DecidableEq

/-- A call row (`Call` struct): the fields relevant to closes and
stop-loss monitoring.  `closedAt` is `none` while the `closed_at` column is
NULL. -/
structure Call where
  id : String
  userID : Int
  chatID : Int
  symbol : String
  direction : String
  entryPrice : ℚ
  size : ℚ
  depositPercent : ℚ
  status : String
  exitPrice : ℚ
  pnlPercent : ℚ
  stopLossPrice : ℚ
  closedAt : Option ℚ
  deriving Repr, DecidableEq

/-- A `user_deposits` row. -/
structure Deposit where
  userID : Int
  initial : ℚ
  current : ℚ
  deriving Repr, DecidableEq

/-- An `alert_triggers` log row (the fields the claims mention). -/
structure TriggerRow where
  alertID : String
  symbol : String
  price : ℚ
  chatID : Int
  kind : String
  deriving Repr, DecidableEq

/-- The relational store: the tables the monitoring core reads and writes. -/
structure Store where
  alerts : List Alert
  calls : List Call
  deposits : List Deposit
  triggers : List TriggerRow
  deriving Repr, DecidableEq

/-! ## Alert storage operations (`DatabaseStorage`) -/

/-- `GetBySymbol`: all alert rows on a symbol (any owner). -/
def getBySymbol (st : Store) (symbol : String) : List Alert :=
  st.alerts.filter (fun a => a.symbol == symbol)

/-- `DeleteByID`: `DELETE FROM alerts WHERE id = ? AND chat_id = ?`. -/
def deleteByID (st : Store) (chatID : Int) (id : String) : Store :=
  { st with alerts := st.alerts.filter (fun a => !(a.id == id && a.chatID == chatID)) }

/-- `LogAlertTrigger`: append one row to the trigger log. -/
def logAlertTrigger (st : Store) (alertID symbol : String) (price : ℚ)
    (chatID : Int) (kind : String) : Store :=
  { st with triggers := st.triggers ++ [⟨alertID, symbol, price, chatID, kind⟩] }

/-- `GetAllOpenCalls`: all call rows with `status = 'open'`. -/
def getAllOpenCalls (st : Store) : List Call :=
  st.calls.filter (fun c => c.status == "open")

/-- `GetUserDeposit`: read the user's deposit row; on `ErrNoRows` insert and
return the default `(100, 100)` row.  Result: (initial, current, store). -/
def getUserDeposit (st : Store) (userID : Int) : ℚ × ℚ × Store :=
  match st.deposits.find? (fun d => d.userID == userID) with
  | some d => (d.initial, d.current, st)
  | none => (100, 100, { st with deposits := st.deposits ++ [⟨userID, 100, 100⟩] })

/-- `UpdateUserDeposit`: update the row's `current_deposit` if it exists,
else insert it with initial deposit 100. -/
def updateUserDeposit (st : Store) (userID : Int) (newDeposit : ℚ) : Store :=
  if st.deposits.any (fun d => d.userID == userID) then
    { st with deposits := st.deposits.map (fun d =>
        if d.userID == userID then { d with current := newDeposit } else d) }
  else
    { st with deposits := st.deposits ++ [⟨userID, 100, newDeposit⟩] }

/-- `GetAllSymbols`: `SELECT DISTINCT symbol FROM (alerts with nonempty
symbol UNION open calls with nonempty symbol) ORDER BY symbol`. -/
def getAllSymbols (st : Store) : List String :=
  (((st.alerts.map (fun a => a.symbol)).filter (fun s => s ≠ "") ++
      ((getAllOpenCalls st).map (fun c => c.symbol)).filter (fun s => s ≠ "")).dedup).insertionSort (· ≤ ·)

/-! ## CloseCall -/

/-- The row filter of the `SELECT ... FROM calls WHERE id = ? AND user_id = ?
AND status = 'open'` lookup at the top of `CloseCall`. -/
def openPred (callID : String) (userID : Int) (c : Call) : Bool :=
  c.id == callID && c.userID == userID && c.status == "open"

/-- The `SELECT ... FROM calls WHERE id = ? AND user_id = ? AND status = 'open'`
lookup at the top of `CloseCall`. -/
def findOpenCall (st : Store) (callID : String) (userID : Int) : Option Call :=
  st.calls.find? (openPred callID userID)

/-- Base P&L percent of `CloseCall`: price change relative to the entry
price, sign flipped for shorts. -/
def basePnl (direction : String) (entryPrice exitPrice : ℚ) : ℚ :=
  if direction == "long" then (exitPrice - entryPrice) / entryPrice * 100
  else (entryPrice - exitPrice) / entryPrice * 100

/-- Result of `CloseCall`: the store after the operation and the error, if
any.  (On the simulated late database failure the deposit update has already
been applied, as in the source, where the deposit write precedes the final
`UPDATE calls`.) -/
structure CloseOutcome where
  store : Store
  error : Option String
  deriving Repr, DecidableEq

/-- The row update of the final `UPDATE calls ... WHERE id = ?` statement of
`CloseCall`, applied to every call row. -/
def closeRow (callID : String) (exitPrice pnl newSize : ℚ) (fullClose : Bool)
    (now : ℚ) (c : Call) : Call :=
  if c.id == callID then
    { c with exitPrice := exitPrice, pnlPercent := pnl,
             size := if fullClose then 0 else newSize,
             status := if fullClose then "closed" else "open",
             closedAt := if fullClose then some now else none }
  else c

/-- `CloseCall(callID, userID, exitPrice, sizeToClose)`.  `updateOk` models
whether the final `UPDATE calls` statement succeeds; `now` is the close
timestamp used when the remaining size falls below 0.001. -/
def closeCall (updateOk : Bool) (now : ℚ) (st : Store) (callID : String)
    (userID : Int) (exitPrice sizeToClose : ℚ) : CloseOutcome :=
  match findOpenCall st callID userID with
  | none => ⟨st, some "call not found or already closed"⟩
  | some call =>
    if sizeToClose ≤ 0 ∨ call.size < sizeToClose then
      ⟨st, some "неверный размер для закрытия"⟩
    else
      let pnl := basePnl call.direction call.entryPrice exitPrice
      let st1 :=
        if 0 < call.depositPercent then
          let dep := getUserDeposit st userID
          let closedPositionPercent := call.depositPercent * (sizeToClose / call.size)
          let depositChangePercent := closedPositionPercent * (pnl / 100)
          let depositChange := depositChangePercent / 100 * dep.2.1
          updateUserDeposit dep.2.2 userID (dep.2.1 + depositChange)
        else st
      let newSize := call.size - sizeToClose
      let fullClose : Bool := decide (newSize < 1 / 1000)
      if updateOk then
        ⟨{ st1 with
            calls := st1.calls.map (closeRow callID exitPrice pnl newSize fullClose now) },
          none⟩
      else ⟨st1, some "database error"⟩

/-! ## Alert evaluation (`checkAlerts`) -/

/-- Absolute-target branch of `checkAlerts`: target price is set (> 0) and
the current price is within the fixed 0.5% tolerance band of it. -/
def absTargetHit (a : Alert) (currentPrice : ℚ) : Bool :=
  decide (0 < a.targetPrice) &&
    decide (|currentPrice - a.targetPrice| ≤ a.targetPrice * (5 / 1000))

/-- Percent change of `currentPrice` relative to `basePrice`, as computed in
`checkAlerts`. -/
def pctChange (basePrice currentPrice : ℚ) : ℚ :=
  (currentPrice - basePrice) / basePrice * 100

/-- Percent-target branch of `checkAlerts`: percent target set, base price
positive, and the signed change reaches the target in its direction. -/
def pctTargetHit (a : Alert) (currentPrice : ℚ) : Bool :=
  decide (a.targetPercent ≠ 0) && decide (0 < a.basePrice) &&
    ((decide (0 < a.targetPercent) &&
        decide (a.targetPercent ≤ pctChange a.basePrice currentPrice)) ||
      (decide (a.targetPercent < 0) &&
        decide (pctChange a.basePrice currentPrice ≤ a.targetPercent)))

/-- Whether `checkAlerts` marks the alert triggered at `currentPrice`: the
absolute check runs first and short-circuits the percent check. -/
def alertTriggered (a : Alert) (currentPrice : ℚ) : Bool :=
  absTargetHit a currentPrice ||
    (!absTargetHit a currentPrice && pctTargetHit a currentPrice)

/-- The trigger-log kind recorded by `checkAlerts`. -/
def triggerKind (a : Alert) : String :=
  if a.targetPercent ≠ 0 then "percent" else "price"

/-- Body of the loop of `checkAlerts` for one alert: on trigger, log the
trigger, send the notification to the owning chat, delete the alert.  The
accumulator carries the store and the chat ids notified so far. -/
def processAlert (symbol : String) (currentPrice : ℚ)
    (acc : Store × List Int) (a : Alert) : Store × List Int :=
  if alertTriggered a currentPrice then
    let st := logAlertTrigger acc.1 a.id symbol currentPrice a.chatID (triggerKind a)
    (deleteByID st a.chatID a.id, acc.2 ++ [a.chatID])
  else acc

/-- `checkAlerts(symbol, currentPrice)`: iterate over the snapshot of alerts
on the symbol.  Returns the store and the list of notified chats. -/
def checkAlerts (st : Store) (symbol : String) (currentPrice : ℚ) : Store × List Int :=
  (getBySymbol st symbol).foldl (processAlert symbol currentPrice) (st, [])

/-! ## Stop-loss monitoring (the call loop inside `startMonitoring`) -/

/-- Stop-loss breach test of the monitoring callback: long breaches at
price ≤ stop-loss, short at price ≥ stop-loss. -/
def stopLossHit (c : Call) (newPrice : ℚ) : Bool :=
  if c.direction == "long" then decide (newPrice ≤ c.stopLossPrice)
  else if c.direction == "short" then decide (c.stopLossPrice ≤ newPrice)
  else false

/-- One iteration of the stop-loss loop: for a call with a configured
stop-loss that is breached, close the full remaining size at the tick price;
notify the owner's chat only when the close succeeded. -/
def stopLossStep (updateOk : Bool) (now newPrice : ℚ)
    (acc : Store × List Int) (c : Call) : Store × List Int :=
  if 0 < c.stopLossPrice then
    if stopLossHit c newPrice then
      let out := closeCall updateOk now acc.1 c.id c.userID newPrice c.size
      match out.error with
      | some _ => (out.store, acc.2)
      | none => (out.store, acc.2 ++ [c.chatID])
    else acc
  else acc

/-- The stop-loss section of the monitoring callback for one symbol tick:
iterate over the snapshot of open calls on the symbol. -/
def checkStopLosses (updateOk : Bool) (now : ℚ) (st : Store) (symbol : String)
    (newPrice : ℚ) : Store × List Int :=
  ((getAllOpenCalls st).filter (fun c => c.symbol == symbol)).foldl
    (stopLossStep updateOk now newPrice) (st, [])

/-! ## Polling loop (`PriceMonitor.poll`) -/

/-- Look up the cached last price of a symbol (`lastPriceBy`). -/
def lookupPrice (cache : List (String × ℚ)) (sym : String) : Option ℚ :=
  (cache.find? (fun e => e.1 == sym)).map (fun e => e.2)

/-- Map assignment `lastPriceBy[sym] = price`. -/
def setPrice (cache : List (String × ℚ)) (sym : String) (price : ℚ) :
    List (String × ℚ) :=
  if cache.any (fun e => e.1 == sym) then
    cache.map (fun e => if e.1 == sym then (e.1, price) else e)
  else cache ++ [(sym, price)]

/-- A delta event passed to the `onAlert` callback:
(symbol, previous price, new price, delta percent). -/
abbrev DeltaEvent := String × ℚ × ℚ × ℚ

/-- One symbol of a `poll` pass.  The fetch result is `none` on fetch
failure (log and skip).  On success the price is cached; if there was no
prior cached price, or it was 0, nothing more happens; otherwise the percent
delta is computed and the callback fires when it reaches the threshold in
either direction. -/
def pollSymbol (threshold : ℚ) (acc : List (String × ℚ) × List DeltaEvent)
    (entry : String × Option ℚ) : List (String × ℚ) × List DeltaEvent :=
  match entry.2 with
  | none => acc
  | some price =>
    let prev? := lookupPrice acc.1 entry.1
    let cache := setPrice acc.1 entry.1 price
    match prev? with
    | none => (cache, acc.2)
    | some prev =>
      if prev = 0 then (cache, acc.2)
      else
        let deltaPct := (price - prev) / prev * 100
        if threshold ≤ deltaPct ∨ deltaPct ≤ -threshold then
          (cache, acc.2 ++ [(entry.1, prev, price, deltaPct)])
        else (cache, acc.2)

/-- A `poll` pass over the registry's symbols with their fetch results:
returns the new cache and the delta events delivered to the callback. -/
def poll (threshold : ℚ) (cache : List (String × ℚ))
    (fetches : List (String × Option ℚ)) : List (String × ℚ) × List DeltaEvent :=
  fetches.foldl (pollSymbol threshold) (cache, [])

/-! ## Sharp-change detection (`checkSharpChange`) -/

/-- Per-symbol sharp-change state: time and price of the last sharp-change
notification (`lastSharpChangeAlert`). -/
structure SharpRecord where
  time : ℚ
  price : ℚ
  deriving Repr, DecidableEq

/-- The sharp-change configuration: threshold percent and lookback interval
in minutes. -/
structure SharpCfg where
  sharpChangePercent : ℚ
  sharpChangeIntervalMin : ℚ
  deriving Repr, DecidableEq

/-- The in-memory `lastSharpChangeAlert` map. -/
abbrev SharpMap := List (String × SharpRecord)

/-- Map assignment `lastSharpChangeAlert[symbol] = {now, price}`. -/
def setSharp (m : SharpMap) (sym : String) (r : SharpRecord) : SharpMap :=
  if m.any (fun e => e.1 == sym) then
    m.map (fun e => if e.1 == sym then (e.1, r) else e)
  else m ++ [(sym, r)]

/-- Map lookup `lastSharpChangeAlert[symbol]`. -/
def lookupSharp (m : SharpMap) (sym : String) : Option SharpRecord :=
  (m.find? (fun e => e.1 == sym)).map (fun e => e.2)

/-- The deduplicated chats notified of a sharp change: every chat owning an
alert on the symbol or an open call on the symbol (the Go code builds a map
keyed by chat id). -/
def sharpRecipients (st : Store) (symbol : String) : List Int :=
  ((getBySymbol st symbol).map (fun a => a.chatID) ++
    ((getAllOpenCalls st).filter (fun c => c.symbol == symbol)).map (fun c => c.chatID)).dedup

/-- A sharp-change notification: (chat, baseline price, current price). -/
abbrev SharpEvent := Int × ℚ × ℚ

/-- The send branch of `checkSharpChange`: record (now, currentPrice) in the
state, then notify and log each recipient chat. -/
def sendSharp (last : SharpMap) (st : Store) (symbol : String)
    (now oldPrice currentPrice : ℚ) : SharpMap × Store × List SharpEvent :=
  let last' := setSharp last symbol ⟨now, currentPrice⟩
  let recips := sharpRecipients st symbol
  let st' := recips.foldl (fun s chat =>
    logAlertTrigger s "" symbol currentPrice chat "sharp_change") st
  (last', st', recips.map (fun chat => (chat, oldPrice, currentPrice)))

/-- `checkSharpChange(symbol, currentPrice)`.  `now` is the current time in
seconds; `hist` is the result of the historical-price fetch for "interval
minutes ago" (`none` on fetch failure).  Baseline: the price recorded at the
last sharp-change notification if that notification is within the lookback
window, otherwise the historical price.  If the percent change from the
baseline reaches the threshold and the 5-minute (300 s) cooldown has
elapsed, the state is rebased to (now, currentPrice) and every chat owning
an alert or open call on the symbol is notified and logged. -/
def checkSharpChange (cfg : SharpCfg) (now : ℚ) (hist : Option ℚ)
    (last : SharpMap) (st : Store) (symbol : String) (currentPrice : ℚ) :
    SharpMap × Store × List SharpEvent :=
  let oldPrice? : Option ℚ :=
    match lookupSharp last symbol with
    | some r =>
      if now - r.time < cfg.sharpChangeIntervalMin * 60 then some r.price else hist
    | none => hist
  match oldPrice? with
  | none => (last, st, [])
  | some oldPrice =>
    let changePct := (currentPrice - oldPrice) / oldPrice * 100
    if cfg.sharpChangePercent ≤ |changePct| then
      match lookupSharp last symbol with
      | some r =>
        if 300 ≤ now - r.time then
          sendSharp last st symbol now oldPrice currentPrice
        else (last, st, [])
      | none => sendSharp last st symbol now oldPrice currentPrice
    else (last, st, [])

/-! ## Theorems -/

/-- C3: for an alert in percent mode with base price B > 0, the percent
check runs only when the absolute-target check did not already trigger (a
hit of the absolute check alone decides the trigger), and under a
non-triggering absolute check the alert triggers exactly when
changePct = (p - B)/B*100 reaches a positive target from above or a negative
target from below. -/
theorem percent_alert_trigger_spec (a : Alert) (p : ℚ)
    (hB : 0 < a.basePrice) (hT : a.targetPercent ≠ 0) :
    (absTargetHit a p = true → alertTriggered a p = true) ∧
    (absTargetHit a p = false →
      (alertTriggered a p = true ↔
        (0 < a.targetPercent ∧ a.targetPercent ≤ (p - a.basePrice) / a.basePrice * 100) ∨
          (a.targetPercent < 0 ∧ (p - a.basePrice) / a.basePrice * 100 ≤ a.targetPercent))) := by
  constructor
  · intro h
    simp [alertTriggered, h]
  · intro h
    simp [alertTriggered, h, pctTargetHit, pctChange, hB, hT]

/-- Witness for `percent_alert_trigger_spec` at a concrete percent alert:
base 100, target +5%, observed price 106. -/
theorem percent_alert_trigger_spec_witness :
    alertTriggered ⟨"a1", 7, 7, "ABCUSDT", 0, 5, 100⟩ 106 = true := by
  have habs : absTargetHit ⟨"a1", 7, 7, "ABCUSDT", 0, 5, 100⟩ 106 = false := by
    simp [absTargetHit]
  exact ((percent_alert_trigger_spec ⟨"a1", 7, 7, "ABCUSDT", 0, 5, 100⟩ 106
    (by norm_num) (by norm_num)).2 habs).mpr (Or.inl (by norm_num))

/-- C8: the registry's symbol list is sorted (lexicographic string order)
and duplicate-free, and a symbol is in it exactly when it is nonempty and
appears on some alert (any owner) or on some open call (any owner). -/
theorem monitored_symbols_spec (st : Store) :
    ((getAllSymbols st).Sorted (· ≤ ·) ∧ (getAllSymbols st).Nodup) ∧
    ∀ s : String, s ∈ getAllSymbols st ↔
      (s ≠ "" ∧ ((∃ a ∈ st.alerts, a.symbol = s) ∨
        ∃ c ∈ st.calls, c.status = "open" ∧ c.symbol = s)) := by
  refine ⟨⟨List.sorted_insertionSort _ _,
    ((List.perm_insertionSort _ _).nodup_iff).mpr (List.nodup_dedup _)⟩, ?_⟩
  intro s
  unfold getAllSymbols getAllOpenCalls
  rw [(List.perm_insertionSort _ _).mem_iff, List.mem_dedup]
  simp only [List.mem_append, List.mem_filter, List.mem_map, decide_eq_true_eq,
    beq_iff_eq]
  constructor
  · rintro (⟨⟨a, ha, rfl⟩, hne⟩ | ⟨⟨c, ⟨hc, hopen⟩, rfl⟩, hne⟩)
    · exact ⟨hne, Or.inl ⟨a, ha, rfl⟩⟩
    · exact ⟨hne, Or.inr ⟨c, hc, hopen, rfl⟩⟩
  · rintro ⟨hne, ⟨a, ha, rfl⟩ | ⟨c, hc, hopen, rfl⟩⟩
    · exact Or.inl ⟨⟨a, ha, rfl⟩, hne⟩
    · exact Or.inr ⟨⟨c, ⟨hc, hopen⟩, rfl⟩, hne⟩

/-- C10: `CloseCall` returns "call not found or already closed" when no call
row matches (id, owner, open); it returns an error when the requested size
is nonpositive or exceeds the remaining size; in both error cases the store
(call rows and deposits alike) is returned unmodified. -/
theorem close_call_error_spec (updateOk : Bool) (now : ℚ) (st : Store)
    (callID : String) (userID : Int) (exitPrice sizeToClose : ℚ) :
    ((∀ c ∈ st.calls, ¬(c.id = callID ∧ c.userID = userID ∧ c.status = "open")) →
      closeCall updateOk now st callID userID exitPrice sizeToClose =
        ⟨st, some "call not found or already closed"⟩) ∧
    (∀ c, findOpenCall st callID userID = some c →
      sizeToClose ≤ 0 ∨ c.size < sizeToClose →
      ∃ msg, closeCall updateOk now st callID userID exitPrice sizeToClose =
        ⟨st, some msg⟩) := by
  constructor
  · intro h
    have hfind : findOpenCall st callID userID = none := by
      rw [findOpenCall, List.find?_eq_none]
      intro c hc
      have := h c hc
      simp only [openPred, Bool.and_eq_true, beq_iff_eq, decide_eq_true_eq]
      tauto
    simp [closeCall, hfind]
  · intro c hfind hsz
    refine ⟨"неверный размер для закрытия", ?_⟩
    simp [closeCall, hfind, if_pos hsz]

/-- Witness for `close_call_error_spec`: a one-call store where the call is
already closed (first case) and, for an open call, a zero close size
(second case). -/
theorem close_call_error_spec_witness :
    closeCall true 0 ⟨[], [⟨"c1", 9, 9, "ABCUSDT", "long", 100, 0, 0, "closed", 90, -10, 0, some 5⟩], [], []⟩
        "c1" 9 90 50 =
      ⟨⟨[], [⟨"c1", 9, 9, "ABCUSDT", "long", 100, 0, 0, "closed", 90, -10, 0, some 5⟩], [], []⟩,
        some "call not found or already closed"⟩ ∧
    ∃ msg, closeCall true 0 ⟨[], [⟨"c2", 9, 9, "ABCUSDT", "long", 100, 100, 0, "open", 0, 0, 0, none⟩], [], []⟩
        "c2" 9 90 0 =
      ⟨⟨[], [⟨"c2", 9, 9, "ABCUSDT", "long", 100, 100, 0, "open", 0, 0, 0, none⟩], [], []⟩, some msg⟩ := by
  constructor
  · exact (close_call_error_spec true 0 _ "c1" 9 90 50).1 (by
      intro c hc
      simp only [List.mem_singleton] at hc
      subst hc
      simp)
  · exact (close_call_error_spec true 0 _ "c2" 9 90 0).2
      ⟨"c2", 9, 9, "ABCUSDT", "long", 100, 100, 0, "open", 0, 0, 0, none⟩
      (by simp [findOpenCall, openPred]) (by norm_num)

/-- Counterexample to C4 as stated: with a cached previous price of 0 for a
symbol (a prior successful fetch returned 0), a new fetched price of 5 and
sensitivity threshold 0, the absolute percent delta from the cached price
meets the threshold, yet the poll pass invokes no per-price handler. -/
theorem poll_delta_gate_cex :
    lookupPrice [("ABCUSDT", 0)] "ABCUSDT" = some 0 ∧
    (0 : ℚ) ≤ |((5 : ℚ) - 0) / 0 * 100| ∧
    (poll 0 [("ABCUSDT", 0)] [("ABCUSDT", some 5)]).2 = [] := by
  refine ⟨by simp [lookupPrice], by norm_num, ?_⟩
  simp [poll, pollSymbol, lookupPrice]

/-- C4 (amended): per fetched price in a poll pass, if no prior price is
cached — or the cached previous price is 0 — the price is recorded and no
per-price handler is invoked; otherwise the percent delta from the previous
cached price is computed and the handler is invoked exactly when its
absolute value meets or exceeds the sensitivity threshold. -/
theorem poll_delta_gate_spec (threshold prev price : ℚ) (sym : String)
    (cache : List (String × ℚ)) (evs : List DeltaEvent) :
    (lookupPrice cache sym = none →
      pollSymbol threshold (cache, evs) (sym, some price) =
        (setPrice cache sym price, evs)) ∧
    (lookupPrice cache sym = some 0 →
      pollSymbol threshold (cache, evs) (sym, some price) =
        (setPrice cache sym price, evs)) ∧
    (lookupPrice cache sym = some prev → prev ≠ 0 →
      pollSymbol threshold (cache, evs) (sym, some price) =
        (setPrice cache sym price,
          if threshold ≤ |(price - prev) / prev * 100| then
            evs ++ [(sym, prev, price, (price - prev) / prev * 100)]
          else evs)) := by
  refine ⟨?_, ?_, ?_⟩
  · intro h
    simp [pollSymbol, h]
  · intro h
    simp [pollSymbol, h]
  · intro h hprev
    have hgate : (threshold ≤ (price - prev) / prev * 100 ∨
        (price - prev) / prev * 100 ≤ -threshold) ↔
        threshold ≤ |(price - prev) / prev * 100| := by
      rw [le_abs]
      constructor
      · rintro (h1 | h1)
        · exact Or.inl h1
        · exact Or.inr (by linarith)
      · rintro (h1 | h1)
        · exact Or.inl h1
        · exact Or.inr (by linarith)
    simp only [pollSymbol, h, hprev, if_neg hprev]
    rw [if_congr hgate rfl rfl]
    simp only [if_false]
    split <;> rfl

/-- Witness for `poll_delta_gate_spec`: threshold 1, cached price 100, new
price 103 — the handler fires with delta 3%. -/
theorem poll_delta_gate_spec_witness :
    pollSymbol 1 ([("ABCUSDT", 100)], []) ("ABCUSDT", some 103) =
      (setPrice [("ABCUSDT", 100)] "ABCUSDT" 103, [("ABCUSDT", 100, 103, 3)]) := by
  have h := (poll_delta_gate_spec 1 100 103 "ABCUSDT" [("ABCUSDT", 100)] []).2.2
    (by simp [lookupPrice]) (by norm_num)
  rw [h]
  norm_num

/-! ### Helper lemmas about `closeCall` -/

theorem closeRow_id (cid : String) (e pnl nsz : ℚ) (fc : Bool) (now : ℚ)
    (c : Call) : (closeRow cid e pnl nsz fc now c).id = c.id := by
  unfold closeRow
  split <;> rfl

theorem closeRow_eq_of_ne (cid : String) (e pnl nsz : ℚ) (fc : Bool) (now : ℚ)
    (c : Call) (h : ¬c.id = cid) : closeRow cid e pnl nsz fc now c = c := by
  unfold closeRow
  simp [h]

theorem getUserDeposit_calls (st : Store) (u : Int) :
    (getUserDeposit st u).2.2.calls = st.calls := by
  unfold getUserDeposit
  cases h : st.deposits.find? (fun d => d.userID == u) <;> simp

theorem updateUserDeposit_calls (st : Store) (u : Int) (v : ℚ) :
    (updateUserDeposit st u v).calls = st.calls := by
  unfold updateUserDeposit
  split <;> rfl

/-- Reduction of `closeCall` once the open call has been found and the size
validated. -/
theorem closeCall_found (u : Bool) (now : ℚ) (st : Store) (cid : String)
    (uid : Int) (e s : ℚ) (c : Call)
    (hf : findOpenCall st cid uid = some c)
    (hsz : ¬(s ≤ 0 ∨ c.size < s)) :
    closeCall u now st cid uid e s =
      (let pnl := basePnl c.direction c.entryPrice e
       let st1 := if 0 < c.depositPercent then
           updateUserDeposit (getUserDeposit st uid).2.2 uid
             ((getUserDeposit st uid).2.1 +
               c.depositPercent * (s / c.size) * (pnl / 100) / 100 *
                 (getUserDeposit st uid).2.1)
         else st
       if u then
         ⟨{ st1 with
             calls := st1.calls.map
               (closeRow cid e pnl (c.size - s) (decide (c.size - s < 1 / 1000)) now) },
           none⟩
       else ⟨st1, some "database error"⟩) := by
  simp only [closeCall, hf, if_neg hsz]

/-- With a failing `UPDATE calls`, `closeCall` always reports an error and
never modifies any call row. -/
theorem closeCall_fail_calls (now : ℚ) (st : Store) (cid : String) (uid : Int)
    (e s : ℚ) :
    (closeCall false now st cid uid e s).store.calls = st.calls ∧
      (closeCall false now st cid uid e s).error.isSome = true := by
  unfold closeCall
  cases hf : findOpenCall st cid uid with
  | none => simp
  | some c =>
    by_cases hsz : s ≤ 0 ∨ c.size < s
    · simp [hsz]
    · simp only [if_neg hsz, Bool.false_eq_true, Option.isSome_some, and_true,
        if_false]
      split
      · rw [updateUserDeposit_calls, getUserDeposit_calls]
      · rfl

/-- Fold lemma: with a failing `UPDATE calls`, a stop-loss pass notifies no
chat and leaves every call row as it was. -/
theorem stopLossFold_fail (now p : ℚ) (l : List Call) (acc : Store × List Int) :
    (l.foldl (stopLossStep false now p) acc).2 = acc.2 ∧
    (l.foldl (stopLossStep false now p) acc).1.calls = acc.1.calls := by
  induction l generalizing acc with
  | nil => exact ⟨rfl, rfl⟩
  | cons c l ih =>
    have hstep : (stopLossStep false now p acc c).2 = acc.2 ∧
        (stopLossStep false now p acc c).1.calls = acc.1.calls := by
      unfold stopLossStep
      by_cases h1 : 0 < c.stopLossPrice
      · by_cases h2 : stopLossHit c p = true
        · have h := closeCall_fail_calls now acc.1 c.id c.userID p c.size
          obtain ⟨msg, ho⟩ := Option.isSome_iff_exists.mp h.2
          simp [h1, h2, ho, h.1]
        · simp [h1, h2]
      · simp [h1]
    simp only [List.foldl_cons]
    obtain ⟨ih1, ih2⟩ := ih (stopLossStep false now p acc c)
    exact ⟨ih1.trans hstep.1, ih2.trans hstep.2⟩

/-- C9: when a breached stop-loss fails to close (store error), no
notification is sent and every position is left as it was (in particular it
remains open); and in general the stop-loss loop notifies the owner's chat
exactly when the close succeeded. -/
theorem stop_loss_close_failure_spec (now p : ℚ) (st : Store) (sym : String)
    (u : Bool) :
    ((checkStopLosses false now st sym p).2 = [] ∧
      (checkStopLosses false now st sym p).1.calls = st.calls) ∧
    (∀ (acc : Store × List Int) (c : Call), 0 < c.stopLossPrice →
      stopLossHit c p = true →
      stopLossStep u now p acc c =
        ((closeCall u now acc.1 c.id c.userID p c.size).store,
          if (closeCall u now acc.1 c.id c.userID p c.size).error.isSome then acc.2
          else acc.2 ++ [c.chatID])) := by
  constructor
  · exact stopLossFold_fail now p _ (st, [])
  · intro acc c h1 h2
    unfold stopLossStep
    rcases ho : (closeCall u now acc.1 c.id c.userID p c.size).error with _ | msg
    · simp [h1, h2, ho]
    · simp [h1, h2, ho]

/-- Witness for `stop_loss_close_failure_spec`: a long call with entry 100,
stop-loss 90, tick price 89, with the failing store. -/
theorem stop_loss_close_failure_spec_witness :
    stopLossStep false 0 89
        ((⟨[], [⟨"c9", 9, 9, "ABCUSDT", "long", 100, 100, 0, "open", 0, 0, 90, none⟩], [], []⟩ : Store), [])
        ⟨"c9", 9, 9, "ABCUSDT", "long", 100, 100, 0, "open", 0, 0, 90, none⟩ =
      ((closeCall false 0
          ⟨[], [⟨"c9", 9, 9, "ABCUSDT", "long", 100, 100, 0, "open", 0, 0, 90, none⟩], [], []⟩
          "c9" 9 89 100).store,
        if (closeCall false 0
            ⟨[], [⟨"c9", 9, 9, "ABCUSDT", "long", 100, 100, 0, "open", 0, 0, 90, none⟩], [], []⟩
            "c9" 9 89 100).error.isSome then [] else [9]) := by
  exact (stop_loss_close_failure_spec 0 89
    ⟨[], [⟨"c9", 9, 9, "ABCUSDT", "long", 100, 100, 0, "open", 0, 0, 90, none⟩], [], []⟩
    "ABCUSDT" false).2 _ _ (by norm_num) (by norm_num [stopLossHit])

/-- `checkAlerts` never touches the deposits table. -/
theorem checkAlertsFold_deposits (sym : String) (p : ℚ) (l : List Alert)
    (acc : Store × List Int) :
    (l.foldl (processAlert sym p) acc).1.deposits = acc.1.deposits := by
  induction l generalizing acc with
  | nil => rfl
  | cons a l ih =>
    have hstep : (processAlert sym p acc a).1.deposits = acc.1.deposits := by
      unfold processAlert logAlertTrigger deleteByID
      split <;> rfl
    simp only [List.foldl_cons]
    exact (ih (processAlert sym p acc a)).trans hstep

/-- The sharp-change trigger-log fold never touches the deposits table. -/
theorem sharpLogFold_deposits (sym : String) (p : ℚ) (l : List Int) (st : Store) :
    (l.foldl (fun s chat => logAlertTrigger s "" sym p chat "sharp_change") st).deposits
      = st.deposits := by
  induction l generalizing st with
  | nil => rfl
  | cons chat l ih => exact (ih _).trans rfl

/-- `sendSharp` never touches the deposits table. -/
theorem sendSharp_deposits (last : SharpMap) (st : Store) (sym : String)
    (now old cur : ℚ) :
    (sendSharp last st sym now old cur).2.1.deposits = st.deposits := by
  unfold sendSharp
  exact sharpLogFold_deposits sym cur _ st

/-- `checkSharpChange` never touches the deposits table. -/
theorem checkSharpChange_deposits (cfg : SharpCfg) (now : ℚ) (hist : Option ℚ)
    (last : SharpMap) (st : Store) (sym : String) (p : ℚ) :
    (checkSharpChange cfg now hist last st sym p).2.1.deposits = st.deposits := by
  unfold checkSharpChange
  repeat'
    first
      | apply sendSharp_deposits
      | rfl
      | split
      | dsimp only

/-- C7: a user's virtual deposit is created as (initial, current) = (100,
100) on first reference; a close of a call with deposit-percent ≤ 0 leaves
the deposits table unchanged, as do alert evaluation and sharp-change
detection; and a successful close of a call with deposit-percent > 0 sets
the user's current balance to
current + current·(depositPercent·sizeToClose/size)·(basePnl/100)/100. -/
theorem deposit_balance_spec (now e s : ℚ) (st : Store) (cid : String)
    (uid : Int) (c : Call) (d : Deposit) (sym : String) (p : ℚ)
    (cfg : SharpCfg) (tnow : ℚ) (hist : Option ℚ) (last : SharpMap) :
    (st.deposits.find? (fun d0 => d0.userID == uid) = none →
      (getUserDeposit st uid).1 = 100 ∧ (getUserDeposit st uid).2.1 = 100 ∧
      (getUserDeposit st uid).2.2.deposits = st.deposits ++ [⟨uid, 100, 100⟩]) ∧
    ((checkAlerts st sym p).1.deposits = st.deposits) ∧
    ((checkSharpChange cfg tnow hist last st sym p).2.1.deposits = st.deposits) ∧
    (findOpenCall st cid uid = some c → ¬(s ≤ 0 ∨ c.size < s) →
      ¬0 < c.depositPercent →
      ∀ u : Bool, (closeCall u now st cid uid e s).store.deposits = st.deposits) ∧
    (findOpenCall st cid uid = some c → ¬(s ≤ 0 ∨ c.size < s) →
      0 < c.depositPercent →
      st.deposits.find? (fun d0 => d0.userID == uid) = some d →
      ∀ d' ∈ (closeCall true now st cid uid e s).store.deposits,
        d'.userID = uid →
        d'.current = d.current +
          d.current * (c.depositPercent * (s / c.size)) *
            (basePnl c.direction c.entryPrice e / 100) / 100) := by
  refine ⟨?_, ?_, ?_, ?_, ?_⟩
  · intro h
    unfold getUserDeposit
    rw [h]
    exact ⟨rfl, rfl, rfl⟩
  · exact checkAlertsFold_deposits sym p _ (st, [])
  · exact checkSharpChange_deposits cfg tnow hist last st sym p
  · intro hf hsz hdp u
    rw [closeCall_found u now st cid uid e s c hf hsz]
    simp only [if_neg hdp]
    cases u <;> rfl
  · intro hf hsz hdp hd d' hmem huid
    rw [closeCall_found true now st cid uid e s c hf hsz] at hmem
    simp only [if_pos hdp, if_pos trivial] at hmem
    unfold getUserDeposit at hmem
    rw [hd] at hmem
    simp only at hmem
    unfold updateUserDeposit at hmem
    have hmemd := List.mem_of_find?_eq_some hd
    have hpd := List.find?_some hd
    have hany : st.deposits.any (fun d0 => d0.userID == uid) = true :=
      List.any_eq_true.mpr ⟨d, hmemd, hpd⟩
    rw [if_pos hany] at hmem
    simp only at hmem
    obtain ⟨d0, hd0, rfl⟩ := List.mem_map.mp hmem
    by_cases h0 : d0.userID = uid
    · simp only [h0, beq_self_eq_true, if_pos] at *
      ring
    · have hb : (d0.userID == uid) = false := beq_eq_false_iff_ne.mpr h0
      rw [hb] at huid
      simp only [Bool.false_eq_true, if_false] at huid
      exact absurd huid h0

/-- Witness for `deposit_balance_spec`: user 5 with current balance 200
closes 40 of a size-100 call with deposit-percent 50 at +10% price change;
the balance becomes 204. -/
theorem deposit_balance_spec_witness :
    (⟨5, 100, 204⟩ : Deposit).current =
      (200 : ℚ) + 200 * ((50 : ℚ) * (40 / 100)) * (basePnl "long" 100 110 / 100) / 100 := by
  have hmem : (⟨5, 100, 204⟩ : Deposit) ∈
      (closeCall true 0
        ⟨[], [⟨"c7", 5, 5, "ABCUSDT", "long", 100, 100, 50, "open", 0, 0, 0, none⟩],
          [⟨5, 100, 200⟩], []⟩ "c7" 5 110 40).store.deposits := by
    norm_num [closeCall, findOpenCall, openPred, getUserDeposit, updateUserDeposit, basePnl, closeRow]
  exact (deposit_balance_spec 0 110 40
      ⟨[], [⟨"c7", 5, 5, "ABCUSDT", "long", 100, 100, 50, "open", 0, 0, 0, none⟩],
        [⟨5, 100, 200⟩], []⟩ "c7" 5
      ⟨"c7", 5, 5, "ABCUSDT", "long", 100, 100, 50, "open", 0, 0, 0, none⟩
      ⟨5, 100, 200⟩ "ABCUSDT" 0 ⟨5, 5⟩ 0 none []).2.2.2.2
    (by norm_num [findOpenCall, openPred]) (by norm_num) (by norm_num)
    (by norm_num) _ hmem rfl

/-! ### List helpers for call-row updates -/

theorem find?_decomp {α : Type} (p : α → Bool) (l : List α) (c : α)
    (h : l.find? p = some c) :
    ∃ l1 l2, l = l1 ++ c :: l2 ∧ ∀ x ∈ l1, p x = false := by
  induction l with
  | nil => simp at h
  | cons a l ih =>
    cases hp : p a with
    | true =>
      rw [List.find?_cons_of_pos _ hp] at h
      obtain rfl := Option.some.inj h
      exact ⟨[], l, rfl, by simp⟩
    | false =>
      rw [List.find?_cons_of_neg _ (by simp [hp])] at h
      obtain ⟨l1, l2, rfl, hl1⟩ := ih h
      refine ⟨a :: l1, l2, rfl, ?_⟩
      intro x hx
      rcases List.mem_cons.mp hx with rfl | hx
      · exact hp
      · exact hl1 x hx

theorem find?_append_of_false {α : Type} (p : α → Bool) (xs ys : List α)
    (h : ∀ x ∈ xs, p x = false) :
    (xs ++ ys).find? p = ys.find? p := by
  induction xs with
  | nil => rfl
  | cons a xs ih =>
    rw [List.cons_append, List.find?_cons_of_neg _ (by simp [h a (List.mem_cons_self a xs)])]
    exact ih (fun x hx => h x (by simp [hx]))

theorem openPred_iff (cid : String) (uid : Int) (c : Call) :
    openPred cid uid c = true ↔ c.id = cid ∧ c.userID = uid ∧ c.status = "open" := by
  simp [openPred, Bool.and_eq_true, and_assoc]

theorem closeRow_userID (cid : String) (e pnl nsz : ℚ) (fc : Bool) (now : ℚ)
    (c : Call) : (closeRow cid e pnl nsz fc now c).userID = c.userID := by
  unfold closeRow
  split <;> rfl

theorem openPred_closeRow_ne (cid' cid : String) (uid : Int) (e pnl nsz : ℚ)
    (fc : Bool) (now : ℚ) (x : Call) (hne : ¬cid = cid') :
    openPred cid uid (closeRow cid' e pnl nsz fc now x) = openPred cid uid x := by
  by_cases h : x.id = cid'
  · have hx : (x.id == cid) = false :=
      beq_eq_false_iff_ne.mpr (by rw [h]; exact fun hh => hne hh.symm)
    have hy : ((closeRow cid' e pnl nsz fc now x).id == cid) = false := by
      rw [closeRow_id]
      exact hx
    unfold openPred
    rw [hx, hy]
    simp
  · rw [closeRow_eq_of_ne cid' e pnl nsz fc now x h]

theorem find?_openPred_map_ne (l : List Call) (cid' : String) (e pnl nsz : ℚ)
    (fc : Bool) (now : ℚ) (cid : String) (uid : Int) (hne : ¬cid = cid') :
    (l.map (closeRow cid' e pnl nsz fc now)).find? (openPred cid uid) =
      l.find? (openPred cid uid) := by
  induction l with
  | nil => rfl
  | cons a l ih =>
    rw [List.map_cons]
    cases hp : openPred cid uid a with
    | false =>
      rw [List.find?_cons_of_neg _ (by
          rw [openPred_closeRow_ne cid' cid uid e pnl nsz fc now a hne]
          simp [hp]),
        List.find?_cons_of_neg _ (by simp [hp])]
      exact ih
    | true =>
      have ha : a.id = cid := ((openPred_iff cid uid a).mp hp).1
      have heq : closeRow cid' e pnl nsz fc now a = a :=
        closeRow_eq_of_ne cid' e pnl nsz fc now a (by rw [ha]; exact hne)
      rw [heq, List.find?_cons_of_pos _ hp, List.find?_cons_of_pos _ hp]

theorem map_id_closeRow (l : List Call) (cid : String) (e pnl nsz : ℚ)
    (fc : Bool) (now : ℚ) :
    (l.map (closeRow cid e pnl nsz fc now)).map Call.id = l.map Call.id := by
  rw [List.map_map]
  exact List.map_congr_left (fun a _ => closeRow_id cid e pnl nsz fc now a)

theorem nodup_ids_split (l1 l2 : List Call) (c : Call)
    (hN : ((l1 ++ c :: l2).map Call.id).Nodup) :
    (∀ x ∈ l1, ¬x.id = c.id) ∧ ∀ y ∈ l2, ¬y.id = c.id := by
  rw [List.map_append, List.nodup_append] at hN
  obtain ⟨h1, h2, hdisj⟩ := hN
  constructor
  · intro x hx heq
    exact hdisj (List.mem_map_of_mem Call.id hx)
      (by rw [List.map_cons]; exact heq ▸ List.mem_cons_self _ _)
  · rw [List.map_cons] at h2
    intro y hy heq
    exact (List.nodup_cons.mp h2).1 (heq ▸ List.mem_map_of_mem Call.id hy)

theorem closeRow_eq_of_id (cid : String) (e pnl nsz : ℚ) (fc : Bool) (now : ℚ)
    (c : Call) (h : c.id = cid) :
    closeRow cid e pnl nsz fc now c =
      { c with exitPrice := e, pnlPercent := pnl,
               size := if fc then 0 else nsz,
               status := if fc then "closed" else "open",
               closedAt := if fc then some now else none } := by
  unfold closeRow
  rw [if_pos (beq_iff_eq.mpr h)]

theorem find?_openPred_map_self (l : List Call) (c : Call) (cid : String)
    (uid : Int) (e pnl nsz now : ℚ)
    (hN : (l.map Call.id).Nodup)
    (h : l.find? (openPred cid uid) = some c) :
    (l.map (closeRow cid e pnl nsz false now)).find? (openPred cid uid) =
      some (closeRow cid e pnl nsz false now c) := by
  obtain ⟨hcid, huid, hopen⟩ := (openPred_iff cid uid c).mp (List.find?_some h)
  obtain ⟨l1, l2, rfl, hl1⟩ := find?_decomp _ _ _ h
  obtain ⟨hids1, _⟩ := nodup_ids_split l1 l2 c hN
  rw [List.map_append, List.map_cons, find?_append_of_false]
  · rw [List.find?_cons_of_pos]
    apply (openPred_iff cid uid _).mpr
    rw [closeRow_eq_of_id cid e pnl nsz false now c hcid]
    exact ⟨hcid, huid, rfl⟩
  · intro x hx
    obtain ⟨x0, hx0, rfl⟩ := List.mem_map.mp hx
    have hne : ¬x0.id = cid := fun hh => hids1 x0 hx0 (hh.trans hcid.symm)
    rw [closeRow_eq_of_ne cid e pnl nsz false now x0 hne]
    exact hl1 x0 hx0

/-- On a successful close (`updateOk = true`, call found, size valid),
`CloseCall` reports no error and rewrites the calls table with the row
update of its final `UPDATE` statement. -/
theorem closeCall_success_calls (now e s : ℚ) (st : Store) (cid : String)
    (uid : Int) (c : Call)
    (hf : findOpenCall st cid uid = some c)
    (hsz : ¬(s ≤ 0 ∨ c.size < s)) :
    (closeCall true now st cid uid e s).error = none ∧
    (closeCall true now st cid uid e s).store.calls =
      st.calls.map (closeRow cid e (basePnl c.direction c.entryPrice e)
        (c.size - s) (decide (c.size - s < 1 / 1000)) now) := by
  simp only [closeCall, hf, if_neg hsz, if_pos trivial]
  constructor
  · trivial
  · show (if 0 < c.depositPercent then _ else st).calls.map _ = _
    split
    · rw [updateUserDeposit_calls, getUserDeposit_calls]
    · rfl

/-- The calls table after any `closeCall` is either untouched or rewritten
by the row update of the final `UPDATE` for the found call's id. -/
theorem closeCall_calls_cases (u : Bool) (now : ℚ) (st : Store) (cid : String)
    (uid : Int) (e s : ℚ) :
    (closeCall u now st cid uid e s).store.calls = st.calls ∨
    ∃ c pnl nsz fc, findOpenCall st cid uid = some c ∧
      (closeCall u now st cid uid e s).store.calls =
        st.calls.map (closeRow cid e pnl nsz fc now) := by
  rcases hfind : findOpenCall st cid uid with _ | c
  · left
    simp [closeCall, hfind]
  · by_cases hsz : s ≤ 0 ∨ c.size < s
    · left
      simp [closeCall, hfind, hsz]
    · cases u with
      | false => exact Or.inl (closeCall_fail_calls now st cid uid e s).1
      | true =>
        right
        exact ⟨c, _, _, _, rfl, (closeCall_success_calls now e s st cid uid c hfind hsz).2⟩

/-- Any call row whose id is the closed id, in the store left by a
successful close, equals the updated row of the found call. -/
theorem closeCall_rows (now e s : ℚ) (st : Store) (cid : String) (uid : Int)
    (c : Call)
    (hf : findOpenCall st cid uid = some c)
    (hsz : ¬(s ≤ 0 ∨ c.size < s))
    (hN : (st.calls.map Call.id).Nodup) :
    (∀ row ∈ (closeCall true now st cid uid e s).store.calls, row.id = cid →
      row = closeRow cid e (basePnl c.direction c.entryPrice e) (c.size - s)
        (decide (c.size - s < 1 / 1000)) now c) ∧
    closeRow cid e (basePnl c.direction c.entryPrice e) (c.size - s)
        (decide (c.size - s < 1 / 1000)) now c ∈
      (closeCall true now st cid uid e s).store.calls := by
  have hcalls := (closeCall_success_calls now e s st cid uid c hf hsz).2
  have hcid : c.id = cid := ((openPred_iff cid uid c).mp (List.find?_some hf)).1
  have hcmem : c ∈ st.calls := List.mem_of_find?_eq_some hf
  constructor
  · intro row hrow hrowid
    rw [hcalls] at hrow
    obtain ⟨x, hx, rfl⟩ := List.mem_map.mp hrow
    have hxid : x.id = cid := by
      rw [← closeRow_id cid e (basePnl c.direction c.entryPrice e) (c.size - s)
        (decide (c.size - s < 1 / 1000)) now x]
      exact hrowid
    have : x = c := List.inj_on_of_nodup_map hN hx hcmem (hxid.trans hcid.symm)
    rw [this]
  · rw [hcalls]
    exact List.mem_map_of_mem _ hcmem

/-- C6: an open call of size 100 closed by 40 leaves size 60 and stays
open; closing the remaining 60 leaves size 0 and flips the status to
closed (full close is detected when the remaining size falls below 0.001);
and a closed row is never modified (in particular never reopened) by any
later close. -/
theorem partial_close_spec (now1 now2 e1 e2 : ℚ) (st : Store) (cid : String)
    (uid : Int) (c : Call)
    (hf : findOpenCall st cid uid = some c)
    (hsize : c.size = 100)
    (hN : (st.calls.map Call.id).Nodup) :
    ((closeCall true now1 st cid uid e1 40).error = none ∧
      ∀ row ∈ (closeCall true now1 st cid uid e1 40).store.calls, row.id = cid →
        row.size = 60 ∧ row.status = "open") ∧
    ((closeCall true now2 (closeCall true now1 st cid uid e1 40).store
        cid uid e2 60).error = none ∧
      ∀ row ∈ (closeCall true now2 (closeCall true now1 st cid uid e1 40).store
          cid uid e2 60).store.calls, row.id = cid →
        row.size = 0 ∧ row.status = "closed") ∧
    (∀ (u : Bool) (nw e s : ℚ) (cid' : String) (uid' : Int) (st' : Store),
      (st'.calls.map Call.id).Nodup →
      ∀ row ∈ st'.calls, row.status = "closed" →
        row ∈ (closeCall u nw st' cid' uid' e s).store.calls) := by
  have hcid : c.id = cid := ((openPred_iff cid uid c).mp (List.find?_some hf)).1
  have hsz1 : ¬((40 : ℚ) ≤ 0 ∨ c.size < 40) := by rw [hsize]; norm_num
  have hfc1 : decide (c.size - 40 < 1 / 1000) = false := by rw [hsize]; norm_num
  set pnl1 := basePnl c.direction c.entryPrice e1 with hpnl1
  set c1 := closeRow cid e1 pnl1 (c.size - 40) false now1 c with hc1def
  have hcalls1 : (closeCall true now1 st cid uid e1 40).store.calls =
      st.calls.map (closeRow cid e1 pnl1 (c.size - 40) false now1) := by
    have h := (closeCall_success_calls now1 e1 40 st cid uid c hf hsz1).2
    rw [hfc1] at h
    exact h
  have hN1 : ((closeCall true now1 st cid uid e1 40).store.calls.map Call.id).Nodup := by
    rw [hcalls1, map_id_closeRow]
    exact hN
  have hf2 : findOpenCall (closeCall true now1 st cid uid e1 40).store cid uid =
      some c1 := by
    rw [findOpenCall, hcalls1]
    exact find?_openPred_map_self st.calls c cid uid e1 pnl1 (c.size - 40) now1 hN hf
  have hc1size : c1.size = 60 := by
    rw [hc1def, closeRow_eq_of_id cid e1 pnl1 (c.size - 40) false now1 c hcid]
    show (if false = true then (0 : ℚ) else c.size - 40) = 60
    rw [hsize]
    norm_num
  have hc1id : c1.id = cid := by
    rw [hc1def, closeRow_id]
    exact hcid
  have hsz2 : ¬((60 : ℚ) ≤ 0 ∨ c1.size < 60) := by
    rw [hc1size]
    norm_num
  have hfc2 : decide (c1.size - 60 < 1 / 1000) = true := by
    rw [hc1size]
    norm_num
  refine ⟨⟨(closeCall_success_calls now1 e1 40 st cid uid c hf hsz1).1, ?_⟩,
    ⟨(closeCall_success_calls now2 e2 60 _ cid uid c1 hf2 hsz2).1, ?_⟩, ?_⟩
  · intro row hrow hrowid
    have hr := (closeCall_rows now1 e1 40 st cid uid c hf hsz1 hN).1 row hrow hrowid
    rw [closeRow_eq_of_id cid e1 _ (c.size - 40)
      (decide (c.size - 40 < 1 / 1000)) now1 c hcid, hfc1] at hr
    rw [hr]
    constructor
    · show (if false = true then (0 : ℚ) else c.size - 40) = 60
      rw [hsize]
      norm_num
    · show (if false = true then "closed" else "open") = "open"
      simp
  · intro row hrow hrowid
    have hr := (closeCall_rows now2 e2 60 _ cid uid c1 hf2 hsz2 hN1).1 row hrow hrowid
    rw [closeRow_eq_of_id cid e2 _ (c1.size - 60)
      (decide (c1.size - 60 < 1 / 1000)) now2 c1 hc1id, hfc2] at hr
    rw [hr]
    constructor
    · show (if true = true then (0 : ℚ) else c1.size - 60) = 0
      simp
    · show (if true = true then "closed" else "open") = "closed"
      simp
  · intro u nw e s cid' uid' st' hN' row hrow hclosed
    rcases closeCall_calls_cases u nw st' cid' uid' e s with hcase | ⟨c', pnl, nsz, fc, hfind', hcase⟩
    · rw [hcase]
      exact hrow
    · rw [hcase]
      have hro := (openPred_iff cid' uid' c').mp (List.find?_some hfind')
      have hc'mem : c' ∈ st'.calls := List.mem_of_find?_eq_some hfind'
      have hne : ¬row.id = cid' := by
        intro hh
        have hrc : row = c' :=
          List.inj_on_of_nodup_map hN' hrow hc'mem (hh.trans hro.1.symm)
        rw [hrc, hro.2.2] at hclosed
        exact absurd hclosed (by decide)
      have hrowfix : closeRow cid' e pnl nsz fc nw row = row :=
        closeRow_eq_of_ne cid' e pnl nsz fc nw row hne
      rw [← hrowfix]
      exact List.mem_map_of_mem _ hrow

/-- Witness for `partial_close_spec`: a single size-100 open call closed by
40 and then by 60; both closes succeed. -/
theorem partial_close_spec_witness :
    (closeCall true 0
      ⟨[], [⟨"c6", 4, 4, "ABCUSDT", "long", 100, 100, 0, "open", 0, 0, 0, none⟩], [], []⟩
      "c6" 4 110 40).error = none ∧
    (closeCall true 1
      (closeCall true 0
        ⟨[], [⟨"c6", 4, 4, "ABCUSDT", "long", 100, 100, 0, "open", 0, 0, 0, none⟩], [], []⟩
        "c6" 4 110 40).store "c6" 4 105 60).error = none := by
  have h := partial_close_spec 0 1 110 105
    ⟨[], [⟨"c6", 4, 4, "ABCUSDT", "long", 100, 100, 0, "open", 0, 0, 0, none⟩], [], []⟩
    "c6" 4 ⟨"c6", 4, 4, "ABCUSDT", "long", 100, 100, 0, "open", 0, 0, 0, none⟩
    (by simp [findOpenCall, openPred]) rfl (by simp)
  exact ⟨h.1.1, h.2.1.1⟩

/-- `find?` returns the unique matching element. -/
theorem find?_eq_some_of_unique {α : Type} (p : α → Bool) (l : List α) (c : α)
    (hc : c ∈ l) (hpc : p c = true) (huniq : ∀ x ∈ l, p x = true → x = c) :
    l.find? p = some c := by
  induction l with
  | nil => cases hc
  | cons a l ih =>
    by_cases hpa : p a = true
    · rw [List.find?_cons_of_pos _ hpa, huniq a (List.mem_cons_self a l) hpa]
    · rcases List.mem_cons.mp hc with rfl | hc'
      · exact absurd hpc hpa
      · rw [List.find?_cons_of_neg _ hpa]
        exact ih hc' (fun x hx hp => huniq x (List.mem_cons_of_mem a hx) hp)

/-- The calls table after one stop-loss iteration is either untouched or
rewritten by a close of the iterated call's id. -/
theorem stopLossStep_calls_cases (u : Bool) (now p : ℚ) (acc : Store × List Int)
    (x : Call) :
    (stopLossStep u now p acc x).1.calls = acc.1.calls ∨
    ∃ pnl nsz fc, (stopLossStep u now p acc x).1.calls =
      acc.1.calls.map (closeRow x.id p pnl nsz fc now) := by
  unfold stopLossStep
  by_cases h1 : 0 < x.stopLossPrice
  · by_cases h2 : stopLossHit x p = true
    · rcases ho : (closeCall u now acc.1 x.id x.userID p x.size).error with _ | msg <;>
        simp only [h1, h2, ho, if_pos, if_true] <;>
        · rcases closeCall_calls_cases u now acc.1 x.id x.userID p x.size with hc |
            ⟨c', pnl, nsz, fc, hfind', hc⟩
          · left
            simpa [h1, h2, ho] using hc
          · right
            refine ⟨pnl, nsz, fc, ?_⟩
            simpa [h1, h2, ho] using hc
    · left
      simp [h1, h2]
  · left
    simp [h1]

/-- A stop-loss iteration on a call with a different id preserves the id
multiset of the calls table, the rows carrying the given id, and the open
lookup for that id. -/
theorem stopLossStep_preserve (u : Bool) (now p : ℚ) (acc : Store × List Int)
    (x : Call) (tid : String) (hne : ¬x.id = tid) :
    ((stopLossStep u now p acc x).1.calls.map Call.id = acc.1.calls.map Call.id) ∧
    (∀ row ∈ acc.1.calls, row.id = tid → row ∈ (stopLossStep u now p acc x).1.calls) ∧
    (∀ row ∈ (stopLossStep u now p acc x).1.calls, row.id = tid → row ∈ acc.1.calls) ∧
    (∀ uid : Int, findOpenCall (stopLossStep u now p acc x).1 tid uid =
      findOpenCall acc.1 tid uid) := by
  rcases stopLossStep_calls_cases u now p acc x with hc | ⟨pnl, nsz, fc, hc⟩
  · exact ⟨by rw [hc], fun row h _ => by rw [hc]; exact h,
      fun row h _ => by rw [hc] at h; exact h,
      fun uid => by unfold findOpenCall; rw [hc]⟩
  · refine ⟨?_, ?_, ?_, ?_⟩
    · rw [hc, map_id_closeRow]
    · intro row h hid
      rw [hc, ← closeRow_eq_of_ne x.id p pnl nsz fc now row
        (fun hh => hne (hh.symm.trans hid))]
      exact List.mem_map_of_mem _ h
    · intro row h hid
      rw [hc] at h
      obtain ⟨y, hy, rfl⟩ := List.mem_map.mp h
      have hyt : y.id = tid := by
        rw [← closeRow_id x.id p pnl nsz fc now y]
        exact hid
      rw [closeRow_eq_of_ne x.id p pnl nsz fc now y
        (fun hh => hne (hh.symm.trans hyt))]
      exact hy
    · intro uid
      unfold findOpenCall
      rw [hc]
      exact find?_openPred_map_ne acc.1.calls x.id p pnl nsz fc now tid uid
        (fun hh => hne hh.symm)

/-- Fold version of `stopLossStep_preserve` over calls that all carry ids
different from the given id. -/
theorem stopLossFold_preserve (u : Bool) (now p : ℚ) (l : List Call)
    (tid : String) (hl : ∀ x ∈ l, ¬x.id = tid) (acc : Store × List Int) :
    ((l.foldl (stopLossStep u now p) acc).1.calls.map Call.id =
      acc.1.calls.map Call.id) ∧
    (∀ row ∈ acc.1.calls, row.id = tid →
      row ∈ (l.foldl (stopLossStep u now p) acc).1.calls) ∧
    (∀ row ∈ (l.foldl (stopLossStep u now p) acc).1.calls, row.id = tid →
      row ∈ acc.1.calls) ∧
    (∀ uid : Int, findOpenCall (l.foldl (stopLossStep u now p) acc).1 tid uid =
      findOpenCall acc.1 tid uid) := by
  induction l generalizing acc with
  | nil => exact ⟨rfl, fun row h _ => h, fun row h _ => h, fun _ => rfl⟩
  | cons x l ih =>
    have hstep := stopLossStep_preserve u now p acc x tid (hl x (List.mem_cons_self x l))
    have hih := ih (fun y hy => hl y (List.mem_cons_of_mem x hy))
      (stopLossStep u now p acc x)
    simp only [List.foldl_cons]
    refine ⟨(hih.1).trans hstep.1, ?_, ?_, fun uid => (hih.2.2.2 uid).trans (hstep.2.2.2 uid)⟩
    · intro row h hid
      exact hih.2.1 row (hstep.2.1 row h hid) hid
    · intro row h hid
      exact hstep.2.2.1 row (hih.2.2.1 row h hid) hid

/-- C2: a tick breaches an open call's configured stop-loss exactly when
(long and price ≤ stop-loss) or (short and price ≥ stop-loss); on breach the
monitoring pass closes the call for its full remaining size at the tick
price, with realized percent computed against the entry price; and
entry 100, exit 89, long gives -11 percent. -/
theorem stop_loss_trigger_spec (now p : ℚ) (st : Store) (c : Call)
    (hsl : 0 < c.stopLossPrice)
    (hmem : c ∈ st.calls)
    (hopen : c.status = "open")
    (hsz : 0 < c.size)
    (hN : (st.calls.map Call.id).Nodup) :
    (stopLossHit c p = true ↔
      (c.direction = "long" ∧ p ≤ c.stopLossPrice) ∨
        (c.direction = "short" ∧ c.stopLossPrice ≤ p)) ∧
    (stopLossHit c p = true →
      ∀ row ∈ (checkStopLosses true now st c.symbol p).1.calls, row.id = c.id →
        row.status = "closed" ∧ row.size = 0 ∧ row.exitPrice = p ∧
          row.pnlPercent = basePnl c.direction c.entryPrice p) ∧
    basePnl "long" 100 89 = -11 := by
  refine ⟨?_, ?_, ?_⟩
  · unfold stopLossHit
    by_cases hl : c.direction = "long"
    · simp [hl]
    · by_cases hs : c.direction = "short"
      · simp [hl, hs]
      · simp [hl, hs]
  · intro hhit row hrowmem hrowid
    have hpc : openPred c.id c.userID c = true :=
      (openPred_iff _ _ _).mpr ⟨rfl, rfl, hopen⟩
    have huniq : ∀ x ∈ st.calls, openPred c.id c.userID x = true → x = c := by
      intro x hx hpx
      exact List.inj_on_of_nodup_map hN hx hmem (((openPred_iff _ _ _).mp hpx).1)
    have hf : findOpenCall st c.id c.userID = some c :=
      find?_eq_some_of_unique _ _ _ hmem hpc huniq
    have hcsn : c ∈ (getAllOpenCalls st).filter (fun x => x.symbol == c.symbol) := by
      simp [getAllOpenCalls, List.mem_filter, hmem, hopen]
    obtain ⟨sn1, sn2, hsn⟩ := List.append_of_mem hcsn
    have hsnN : (((getAllOpenCalls st).filter
        (fun x => x.symbol == c.symbol)).map Call.id).Nodup :=
      hN.sublist (((List.filter_sublist _).trans (List.filter_sublist _)).map Call.id)
    rw [hsn] at hsnN
    obtain ⟨hids1, hids2⟩ := nodup_ids_split sn1 sn2 c hsnN
    unfold checkStopLosses at hrowmem
    rw [hsn, List.foldl_append, List.foldl_cons] at hrowmem
    set acc1 := sn1.foldl (stopLossStep true now p) (st, []) with hacc1
    have hpre := stopLossFold_preserve true now p sn1 c.id hids1 (st, [])
    have hN1 : (acc1.1.calls.map Call.id).Nodup := by
      rw [hacc1, hpre.1]
      exact hN
    have hf1 : findOpenCall acc1.1 c.id c.userID = some c := by
      rw [hacc1, hpre.2.2.2 c.userID]
      exact hf
    have hszc : ¬(c.size ≤ 0 ∨ c.size < c.size) := by
      push_neg
      exact ⟨hsz, le_refl _⟩
    have herr := (closeCall_success_calls now p c.size acc1.1 c.id c.userID c hf1 hszc).1
    have hstep : stopLossStep true now p acc1 c =
        ((closeCall true now acc1.1 c.id c.userID p c.size).store,
          acc1.2 ++ [c.chatID]) := by
      unfold stopLossStep
      simp [hsl, hhit, herr]
    have hrows := closeCall_rows now p c.size acc1.1 c.id c.userID c hf1 hszc hN1
    have hpost := stopLossFold_preserve true now p sn2 c.id hids2
      (stopLossStep true now p acc1 c)
    have hrow2 : row ∈ (stopLossStep true now p acc1 c).1.calls :=
      hpost.2.2.1 row hrowmem hrowid
    rw [hstep] at hrow2
    have hrfin := hrows.1 row hrow2 hrowid
    have hfc : decide (c.size - c.size < 1 / 1000) = true := by
      rw [sub_self]
      norm_num
    rw [closeRow_eq_of_id c.id p (basePnl c.direction c.entryPrice p)
      (c.size - c.size) (decide (c.size - c.size < 1 / 1000)) now c rfl, hfc] at hrfin
    rw [hrfin]
    refine ⟨?_, ?_, rfl, rfl⟩
    · show (if true = true then "closed" else "open") = "closed"
      simp
    · show (if true = true then (0 : ℚ) else c.size - c.size) = 0
      simp
  · norm_num [basePnl]

/-- Witness for `stop_loss_trigger_spec`: a long call with entry 100,
stop-loss 90 breaches at tick price 89, and the pass leaves it closed at
size 0, exit 89, -11 percent. -/
theorem stop_loss_trigger_spec_witness :
    stopLossHit ⟨"cw2", 8, 8, "ABCUSDT", "long", 100, 100, 0, "open", 0, 0, 90, none⟩ 89 = true ∧
    ((⟨"cw2", 8, 8, "ABCUSDT", "long", 100, 0, 0, "closed", 89, -11, 90, some 0⟩ : Call).status = "closed" ∧
      (⟨"cw2", 8, 8, "ABCUSDT", "long", 100, 0, 0, "closed", 89, -11, 90, some 0⟩ : Call).size = 0 ∧
      (⟨"cw2", 8, 8, "ABCUSDT", "long", 100, 0, 0, "closed", 89, -11, 90, some 0⟩ : Call).exitPrice = 89 ∧
      (⟨"cw2", 8, 8, "ABCUSDT", "long", 100, 0, 0, "closed", 89, -11, 90, some 0⟩ : Call).pnlPercent =
        basePnl "long" 100 89) := by
  have h := stop_loss_trigger_spec 0 89
    ⟨[], [⟨"cw2", 8, 8, "ABCUSDT", "long", 100, 100, 0, "open", 0, 0, 90, none⟩], [], []⟩
    ⟨"cw2", 8, 8, "ABCUSDT", "long", 100, 100, 0, "open", 0, 0, 90, none⟩
    (by norm_num) (by simp) rfl (by norm_num) (by simp)
  have hhit : stopLossHit
      ⟨"cw2", 8, 8, "ABCUSDT", "long", 100, 100, 0, "open", 0, 0, 90, none⟩ 89 = true :=
    h.1.mpr (Or.inl ⟨rfl, by norm_num⟩)
  refine ⟨hhit, ?_⟩
  have hmemrow : (⟨"cw2", 8, 8, "ABCUSDT", "long", 100, 0, 0, "closed", 89, -11, 90, some 0⟩ : Call) ∈
      (checkStopLosses true 0
        ⟨[], [⟨"cw2", 8, 8, "ABCUSDT", "long", 100, 100, 0, "open", 0, 0, 90, none⟩], [], []⟩
        "ABCUSDT" 89).1.calls := by
    norm_num [checkStopLosses, getAllOpenCalls, stopLossStep, stopLossHit, closeCall,
      findOpenCall, openPred, basePnl, closeRow]
  exact h.2.1 hhit _ hmemrow rfl

/-- One alert-evaluation iteration only shrinks the alerts table, only
appends to the trigger log and to the notified chats, and preserves the
absence of a given (id, chat) pair among the alerts. -/
theorem processAlert_step (sym : String) (p : ℚ) (acc : Store × List Int)
    (b : Alert) (aid : String) (cid : Int) :
    (∀ x ∈ (processAlert sym p acc b).1.alerts, x ∈ acc.1.alerts) ∧
    (∀ t ∈ acc.1.triggers, t ∈ (processAlert sym p acc b).1.triggers) ∧
    (∀ i ∈ acc.2, i ∈ (processAlert sym p acc b).2) ∧
    ((∀ x ∈ acc.1.alerts, ¬(x.id = aid ∧ x.chatID = cid)) →
      ∀ x ∈ (processAlert sym p acc b).1.alerts, ¬(x.id = aid ∧ x.chatID = cid)) := by
  unfold processAlert logAlertTrigger deleteByID
  split
  · refine ⟨?_, ?_, ?_, ?_⟩
    · intro x hx
      exact (List.mem_filter.mp hx).1
    · intro t ht
      exact List.mem_append_left _ ht
    · intro i hi
      exact List.mem_append_left _ hi
    · intro h x hx
      exact h x (List.mem_filter.mp hx).1
  · exact ⟨fun x hx => hx, fun t ht => ht, fun i hi => hi, fun h => h⟩

/-- Fold version of `processAlert_step`. -/
theorem processAlertFold_step (sym : String) (p : ℚ) (l : List Alert)
    (acc : Store × List Int) (aid : String) (cid : Int) :
    (∀ t ∈ acc.1.triggers, t ∈ (l.foldl (processAlert sym p) acc).1.triggers) ∧
    (∀ i ∈ acc.2, i ∈ (l.foldl (processAlert sym p) acc).2) ∧
    ((∀ x ∈ acc.1.alerts, ¬(x.id = aid ∧ x.chatID = cid)) →
      ∀ x ∈ (l.foldl (processAlert sym p) acc).1.alerts,
        ¬(x.id = aid ∧ x.chatID = cid)) := by
  induction l generalizing acc with
  | nil => exact ⟨fun t ht => ht, fun i hi => hi, fun h => h⟩
  | cons b l ih =>
    have hstep := processAlert_step sym p acc b aid cid
    have hih := ih (processAlert sym p acc b)
    simp only [List.foldl_cons]
    refine ⟨?_, ?_, ?_⟩
    · intro t ht
      exact hih.1 t (hstep.2.1 t ht)
    · intro i hi
      exact hih.2.1 i (hstep.2.2.1 i hi)
    · intro h
      exact hih.2.2 (hstep.2.2.2 h)

/-- Processing a snapshot containing a triggered alert logs it, notifies
its chat, and removes every alert row with its (id, chat) pair. -/
theorem processAlertFold_main (sym : String) (p : ℚ) (l : List Alert)
    (a : Alert) (ha : a ∈ l) (htrig : alertTriggered a p = true)
    (acc : Store × List Int) :
    (∃ t ∈ (l.foldl (processAlert sym p) acc).1.triggers,
      t.alertID = a.id ∧ t.symbol = sym ∧ t.price = p ∧ t.chatID = a.chatID) ∧
    a.chatID ∈ (l.foldl (processAlert sym p) acc).2 ∧
    ∀ x ∈ (l.foldl (processAlert sym p) acc).1.alerts,
      ¬(x.id = a.id ∧ x.chatID = a.chatID) := by
  induction l generalizing acc with
  | nil => cases ha
  | cons b l ih =>
    rcases List.mem_cons.mp ha with rfl | ha'
    · simp only [List.foldl_cons]
      have hstep : processAlert sym p acc a =
          (deleteByID (logAlertTrigger acc.1 a.id sym p a.chatID (triggerKind a))
            a.chatID a.id, acc.2 ++ [a.chatID]) := by
        unfold processAlert
        rw [if_pos htrig]
      have hfold := processAlertFold_step sym p l (processAlert sym p acc a) a.id a.chatID
      refine ⟨?_, ?_, ?_⟩
      · refine ⟨⟨a.id, sym, p, a.chatID, triggerKind a⟩, hfold.1 _ ?_, rfl, rfl, rfl, rfl⟩
        rw [hstep]
        show _ ∈ (logAlertTrigger acc.1 a.id sym p a.chatID (triggerKind a)).triggers
        unfold logAlertTrigger
        exact List.mem_append_right _ (List.mem_singleton.mpr rfl)
      · apply hfold.2.1
        rw [hstep]
        exact List.mem_append_right _ (List.mem_singleton.mpr rfl)
      · apply hfold.2.2
        rw [hstep]
        intro x hx
        have := (List.mem_filter.mp hx).2
        simp only [Bool.not_eq_true', Bool.and_eq_false_iff, beq_eq_false_iff_ne] at this
        rintro ⟨h1, h2⟩
        rcases this with h | h
        · exact h h1
        · exact h h2
    · simp only [List.foldl_cons]
      exact ih ha' (processAlert sym p acc b)

/-- C1: an alert in absolute mode (target price P > 0, no percent target —
the data-model invariant keeps exactly one mode active) triggers at price p
exactly when |p - P| ≤ 0.005·P; and when it triggers during an evaluation
pass on its symbol, a trigger-log row is appended, its owning chat is
notified, and no alert row with its (id, chat) pair survives the pass — so
the alert cannot fire again. -/
theorem absolute_alert_spec (a : Alert) (p : ℚ) (st : Store)
    (hP : 0 < a.targetPrice) (hmode : a.targetPercent = 0) :
    (alertTriggered a p = true ↔ |p - a.targetPrice| ≤ 0.005 * a.targetPrice) ∧
    (a ∈ st.alerts → alertTriggered a p = true →
      (∃ t ∈ (checkAlerts st a.symbol p).1.triggers,
        t.alertID = a.id ∧ t.symbol = a.symbol ∧ t.price = p ∧ t.chatID = a.chatID) ∧
      a.chatID ∈ (checkAlerts st a.symbol p).2 ∧
      ∀ x ∈ (checkAlerts st a.symbol p).1.alerts,
        ¬(x.id = a.id ∧ x.chatID = a.chatID)) := by
  constructor
  · have h005 : (0.005 : ℚ) * a.targetPrice = a.targetPrice * (5 / 1000) := by
      rw [mul_comm]
      norm_num
    rw [h005]
    simp [alertTriggered, absTargetHit, pctTargetHit, hmode, hP]
  · intro hmem htrig
    have hsn : a ∈ getBySymbol st a.symbol := by
      simp [getBySymbol, List.mem_filter, hmem]
    exact processAlertFold_main a.symbol p (getBySymbol st a.symbol) a hsn htrig (st, [])

/-- Witness for `absolute_alert_spec`: the spec's scenario — alert on
target 100, price 99.6 is inside the band and the owning chat 3 is
notified. -/
theorem absolute_alert_spec_witness :
    alertTriggered ⟨"aw1", 3, 3, "ABCUSDT", 100, 0, 0⟩ (996 / 10) = true ∧
    (3 : Int) ∈ (checkAlerts ⟨[⟨"aw1", 3, 3, "ABCUSDT", 100, 0, 0⟩], [], [], []⟩
      "ABCUSDT" (996 / 10)).2 := by
  have h := absolute_alert_spec ⟨"aw1", 3, 3, "ABCUSDT", 100, 0, 0⟩ (996 / 10)
    ⟨[⟨"aw1", 3, 3, "ABCUSDT", 100, 0, 0⟩], [], [], []⟩ (by norm_num) rfl
  have htrig : alertTriggered ⟨"aw1", 3, 3, "ABCUSDT", 100, 0, 0⟩ (996 / 10) = true :=
    h.1.mpr (by show |(996 : ℚ) / 10 - 100| ≤ 0.005 * 100; norm_num [abs_le])
  exact ⟨htrig, (h.2 (by simp) htrig).2.1⟩

/-- After a map assignment, the sharp-change lookup of the assigned symbol
returns the assigned record. -/
theorem lookupSharp_setSharp (m : SharpMap) (sym : String) (r : SharpRecord) :
    lookupSharp (setSharp m sym r) sym = some r := by
  unfold lookupSharp setSharp
  by_cases h : m.any (fun e => e.1 == sym) = true
  · rw [if_pos h]
    have haux : (m.map (fun e => if e.1 == sym then (e.1, r) else e)).find?
        (fun e => e.1 == sym) = some (sym, r) := by
      induction m with
      | nil => simp at h
      | cons a m ih =>
        rw [List.map_cons]
        by_cases ha : (a.1 == sym) = true
        · have ha' : a.1 = sym := beq_iff_eq.mp ha
          rw [if_pos ha, List.find?_cons_of_pos _ (by simp [ha]), ha']
        · rw [if_neg ha, List.find?_cons_of_neg _ (by simp at ha ⊢; exact ha)]
          exact ih (by simp at h; simp [h.resolve_left (by simp at ha; exact ha)])
    rw [haux]
    rfl
  · rw [if_neg h]
    have hall : ∀ e ∈ m, (fun e : String × SharpRecord => e.1 == sym) e = false := by
      intro e he
      rcases Bool.eq_false_or_eq_true (e.1 == sym) with ht | hf
      · exact absurd (List.any_eq_true.mpr ⟨e, he, ht⟩) h
      · exact hf
    rw [find?_append_of_false _ _ _ hall, List.find?_cons_of_pos _ (by simp)]
    rfl

/-- `checkSharpChange` either does nothing or performs the send branch. -/
theorem checkSharpChange_shape (cfg : SharpCfg) (now : ℚ) (hist : Option ℚ)
    (last : SharpMap) (st : Store) (sym : String) (p : ℚ) :
    checkSharpChange cfg now hist last st sym p = (last, st, []) ∨
    ∃ old, checkSharpChange cfg now hist last st sym p =
      sendSharp last st sym now old p := by
  unfold checkSharpChange
  repeat'
    first
      | exact Or.inl rfl
      | exact Or.inr ⟨_, rfl⟩
      | split
      | dsimp only

/-- Cooldown gate: a previous sharp-change notification for the symbol less
than 5 minutes (300 s) old suppresses any new notification and leaves the
per-symbol state unchanged. -/
theorem checkSharpChange_cooldown (cfg : SharpCfg) (now : ℚ) (hist : Option ℚ)
    (last : SharpMap) (st : Store) (sym : String) (p : ℚ) (r : SharpRecord)
    (hlook : lookupSharp last sym = some r) (hlt : now - r.time < 300) :
    (checkSharpChange cfg now hist last st sym p).2.2 = [] ∧
    (checkSharpChange cfg now hist last st sym p).1 = last := by
  have hnotle : ¬300 ≤ now - r.time := not_le.mpr hlt
  unfold checkSharpChange
  rw [hlook]
  dsimp only
  repeat'
    first
      | exact ⟨rfl, rfl⟩
      | (rw [if_neg hnotle]; exact ⟨rfl, rfl⟩)
      | split
      | dsimp only

/-- C5: a sharp-change notification for a symbol is sent only when at least
5 minutes (300 s) have passed since the previous one (a fresh previous
notification suppresses it and leaves the state unchanged, so two
qualifying moves within the cooldown yield exactly one notification); a
sent notification records the current time and price for the symbol; and a
previous notification within the lookback window makes every notification
measure from the price recorded at that notification. -/
theorem sharp_change_cooldown_spec (cfg : SharpCfg) (now : ℚ) (hist : Option ℚ)
    (last : SharpMap) (st : Store) (sym : String) (p : ℚ) (r : SharpRecord) :
    (lookupSharp last sym = some r → now - r.time < 300 →
      (checkSharpChange cfg now hist last st sym p).2.2 = [] ∧
      (checkSharpChange cfg now hist last st sym p).1 = last) ∧
    ((checkSharpChange cfg now hist last st sym p).2.2 ≠ [] →
      lookupSharp (checkSharpChange cfg now hist last st sym p).1 sym =
        some ⟨now, p⟩) ∧
    (lookupSharp last sym = some r →
      now - r.time < cfg.sharpChangeIntervalMin * 60 →
      ∀ ev ∈ (checkSharpChange cfg now hist last st sym p).2.2,
        ev.2.1 = r.price) ∧
    ((checkSharpChange cfg now hist last st sym p).2.2 ≠ [] →
      ∀ (now2 p2 : ℚ) (hist2 : Option ℚ) (st2 : Store), now2 - now < 300 →
        (checkSharpChange cfg now2 hist2
          (checkSharpChange cfg now hist last st sym p).1 st2 sym p2).2.2 = []) := by
  refine ⟨fun hl hlt => checkSharpChange_cooldown cfg now hist last st sym p r hl hlt,
    ?_, ?_, ?_⟩
  · intro hne
    rcases checkSharpChange_shape cfg now hist last st sym p with hsh | ⟨old, hsh⟩
    · rw [hsh] at hne
      exact absurd rfl hne
    · rw [hsh]
      exact lookupSharp_setSharp last sym ⟨now, p⟩
  · intro hl hwin ev hev
    unfold checkSharpChange at hev
    rw [hl] at hev
    dsimp only at hev
    rw [if_pos hwin] at hev
    dsimp only at hev
    split at hev
    · split at hev
      · unfold sendSharp at hev
        dsimp only at hev
        obtain ⟨chat, hchat, rfl⟩ := List.mem_map.mp hev
        rfl
      · simp at hev
    · simp at hev
  · intro hne now2 p2 hist2 st2 hlt2
    rcases checkSharpChange_shape cfg now hist last st sym p with hsh | ⟨old, hsh⟩
    · rw [hsh] at hne
      exact absurd rfl hne
    · rw [hsh]
      have hlook2 : lookupSharp (sendSharp last st sym now old p).1 sym =
          some ⟨now, p⟩ := lookupSharp_setSharp last sym ⟨now, p⟩
      exact (checkSharpChange_cooldown cfg now2 hist2 _ st2 sym p2 ⟨now, p⟩
        hlook2 hlt2).1

/-- Witness for `sharp_change_cooldown_spec`: a 20% move 100 s after the
previous notification is suppressed and the state is unchanged. -/
theorem sharp_change_cooldown_spec_witness :
    (checkSharpChange ⟨5, 15⟩ 100 (some 100) [("ABCUSDT", ⟨0, 100⟩)]
      ⟨[], [], [], []⟩ "ABCUSDT" 120).2.2 = [] ∧
    (checkSharpChange ⟨5, 15⟩ 100 (some 100) [("ABCUSDT", ⟨0, 100⟩)]
      ⟨[], [], [], []⟩ "ABCUSDT" 120).1 = [("ABCUSDT", ⟨0, 100⟩)] := by
  exact (sharp_change_cooldown_spec ⟨5, 15⟩ 100 (some 100) [("ABCUSDT", ⟨0, 100⟩)]
    ⟨[], [], [], []⟩ "ABCUSDT" 120 ⟨0, 100⟩).1 (by simp [lookupSharp]) (by norm_num)

end AlertBot
